import Mathlib

/-!
Verification of the billboard pricing and quote-generation engine of the
`agratem-design` repository (`src/services/enhancedPricingService.ts` together
with the CSV export in the pricing-data manager component).

The TypeScript service is shallowly embedded: each method becomes a pure Lean
function over explicit inputs (the loaded price table, the current instant,
millisecond timestamps for dates).  JavaScript numbers that the service only
ever uses at integral values are modelled as `Int`; the two places where a
non-integral intermediate appears (`Math.round(x / y)` and `Math.ceil(x / y)`)
are modelled with exact integer rounding, which agrees with the IEEE-double
computation throughout the value ranges the service manipulates.  Arabic field
names of the TypeScript records (`المقاس`, `المستوى`, `الزبون`, …) are mapped
to the English names `size`, `level`, `customerType` and the duration keys
`oneDay`, `oneMonth`, `twoMonths`, `threeMonths`, `sixMonths`, `oneYear`;
string literals that the code compares or serializes are kept verbatim.
-/

/-- A JavaScript value stored in a dynamically-keyed record field of the
service: a number, a string, or `undefined`.  `PricingRow` fields read through
`row[pricingKey]` and the CSV-import row objects take values of this type. -/
inductive FieldVal where
  | num (n : Int)
  | str (s : String)
  | undefined
  deriving DecidableEq, Repr

/-- JavaScript truthiness of a `FieldVal`: a number is truthy iff non-zero, a
string iff non-empty, `undefined` is falsy.  Used by the CSV-import acceptance
check `if (row.المقاس && row.المستوى && row.الزبون)`. -/
def FieldVal.truthy : FieldVal → Bool
  | .num n => n != 0
  | .str s => s != ""
  | .undefined => false

/-- One row of the `pricing_ar` table (TypeScript interface `PricingRow`).
`size`/`level`/`customerType` are the Arabic-named key columns `المقاس`,
`المستوى`, `الزبون`; the six optional price points are the duration columns,
absent (`none`) when untracked. -/
structure PricingRow where
  id : Option Int
  size : String
  level : String
  customerType : String
  oneMonth : Option Int
  twoMonths : Option Int
  threeMonths : Option Int
  sixMonths : Option Int
  oneYear : Option Int
  oneDay : Option Int
  deriving DecidableEq, Repr

/-- A key of the `PricingRow` record (TypeScript `keyof PricingRow`), the type
of the `pricingKey` argument of `findPriceForBillboard`. -/
inductive PricingKey where
  | kId
  | kSize
  | kLevel
  | kCustomerType
  | kOneMonth
  | kTwoMonths
  | kThreeMonths
  | kSixMonths
  | kOneYear
  | kOneDay
  deriving DecidableEq, Repr

/-- Dynamic field read `row[pricingKey]` on a `PricingRow`: the key columns
hold strings, `id` and the duration columns hold numbers or `undefined`. -/
def PricingRow.getKey (r : PricingRow) : PricingKey → FieldVal
  | .kId => match r.id with | some n => .num n | none => .undefined
  | .kSize => .str r.size
  | .kLevel => .str r.level
  | .kCustomerType => .str r.customerType
  | .kOneMonth => match r.oneMonth with | some n => .num n | none => .undefined
  | .kTwoMonths => match r.twoMonths with | some n => .num n | none => .undefined
  | .kThreeMonths => match r.threeMonths with | some n => .num n | none => .undefined
  | .kSixMonths => match r.sixMonths with | some n => .num n | none => .undefined
  | .kOneYear => match r.oneYear with | some n => .num n | none => .undefined
  | .kOneDay => match r.oneDay with | some n => .num n | none => .undefined

/-- `typeof price === 'number' ? price : 0` — the final coercion of
`findPriceForBillboard`. -/
def numOr0 : FieldVal → Int
  | .num n => n
  | .str _ => 0
  | .undefined => 0

/-- TypeScript interface `BillboardPricingData`: one priceable billboard. -/
structure BillboardPricingData where
  id : String
  name : String
  size : String
  municipality : String
  level : String
  status : String
  location : String
  imageUrl : Option String
  deriving DecidableEq, Repr

/-- TypeScript interface `PricingCalculation`: the per-billboard result. -/
structure PricingCalculation where
  billboard : BillboardPricingData
  basePrice : Int
  dailyPrice : Int
  totalDays : Int
  subtotal : Int
  installationPrice : Int
  total : Int
  deriving DecidableEq, Repr

/-- TypeScript type `PricingMode`. -/
inductive PricingMode where
  | daily
  | package
  deriving DecidableEq, Repr

/-- TypeScript interface `PackageOption`: a fixed-duration package selector. -/
structure PackageOption where
  key : PricingKey
  label : String
  duration : Int
  deriving DecidableEq, Repr

/-- The customer contact block of a `PricingQuote`. -/
structure CustomerInfo where
  name : String
  email : String
  phone : String
  company : Option String
  customerType : String
  deriving DecidableEq, Repr

/-- TypeScript interface `PricingQuote`.  Dates and timestamps are modelled as
epoch milliseconds (`Int`); the quote id keeps its `Q-${Date.now()}` shape as
a string. -/
structure PricingQuote where
  id : String
  customerInfo : CustomerInfo
  pricingMode : PricingMode
  startDate : Int
  endDate : Option Int
  packageDuration : Option String
  billboards : List PricingCalculation
  subtotal : Int
  totalInstallation : Int
  grandTotal : Int
  currency : String
  createdAt : Int
  validUntil : Int
  deriving DecidableEq, Repr

/-- Milliseconds in a day, the constant `1000 * 60 * 60 * 24` of
`calculateDailyPrice`. -/
def msPerDay : Int := 1000 * 60 * 60 * 24

/-- `Math.ceil (a / b)` for integers with `0 < b`, computed exactly:
the ceiling of the rational `a / b` is `-((-a) divided-toward-minus-infinity b)`.
For the day-count computation the IEEE-double division of the source agrees
with the exact value because quotients near an integer differ from it by at
least `1 / 86400000`, far above the rounding error of doubles in this range. -/
def mathCeilDiv (a b : Int) : Int := -((-a) / b)

/-- `Math.round (p / d)` for integers with `0 < d`, computed exactly:
round-half-up (toward positive infinity) is the floor of `p / d + 1 / 2`,
i.e. `(2 * p + d) divided-toward-minus-infinity (2 * d)`.  For the arguments
the service produces (package price over duration, fee base times multiplier,
mean of daily prices) the IEEE-double computation agrees with this exact
rounding. -/
def mathRoundDiv (p d : Int) : Int := (2 * p + d) / (2 * d)

theorem mathRoundDiv_bounds (p d : Int) (hd : 0 < d) :
    2 * d * mathRoundDiv p d ≤ 2 * p + d ∧
    2 * p + d < 2 * d * mathRoundDiv p d + 2 * d := by
  have h2d : (0 : Int) < 2 * d := by linarith
  have hne : (2 * d) ≠ 0 := ne_of_gt h2d
  have hadd := Int.ediv_add_emod (2 * p + d) (2 * d)
  have hnn := Int.emod_nonneg (2 * p + d) hne
  have hlt := Int.emod_lt_of_pos (2 * p + d) h2d
  unfold mathRoundDiv
  constructor <;> linarith

theorem mathCeilDiv_bounds (a b : Int) (hb : 0 < b) :
    b * (mathCeilDiv a b - 1) < a ∧ a ≤ b * mathCeilDiv a b := by
  have hne : b ≠ 0 := ne_of_gt hb
  have hadd := Int.ediv_add_emod (-a) b
  have hnn := Int.emod_nonneg (-a) hne
  have hlt := Int.emod_lt_of_pos (-a) hb
  unfold mathCeilDiv
  constructor <;> linarith

/-- The row predicate of `findPriceForBillboard`:
`r.المقاس === size && r.المستوى === level && r.الزبون === customerType`. -/
def rowMatches (r : PricingRow) (size level customerType : String) : Bool :=
  r.size == size && r.level == level && r.customerType == customerType

/-- `findPriceForBillboard` of `EnhancedPricingService`, parameterized by the
loaded price table (the service obtains it from cache/Supabase/fallback; the
lookup logic itself is pure).  Returns the value at `pricingKey` of the first
matching row when it is a number, and `0` otherwise; it is a total function,
the source's catch-all `return 0` branches having nothing to catch in the pure
model. -/
def findPriceForBillboard (table : List PricingRow)
    (size level customerType : String) (pricingKey : PricingKey) : Int :=
  match table.find? (fun r => rowMatches r size level customerType) with
  | none => 0
  | some row => numOr0 (row.getKey pricingKey)

/-- `getPackageOptions`: the fixed catalog of five package durations. -/
def getPackageOptions : List PackageOption :=
  [ { key := .kOneMonth,   label := "شهر واحد",   duration := 30 },
    { key := .kTwoMonths,  label := "2 أشهر",     duration := 60 },
    { key := .kThreeMonths, label := "3 أشهر",    duration := 90 },
    { key := .kSixMonths,  label := "6 أشهر",     duration := 180 },
    { key := .kOneYear,    label := "سنة كاملة",  duration := 365 } ]

/-- The static size-to-base-fee table of `getInstallationPrice`
(`installationPrices[size] || 500`; every stored fee is non-zero, so the
JavaScript `||` default fires exactly on a missing key). -/
def installationBasePrice (size : String) : Int :=
  if size = "13x5" then 1500
  else if size = "12x4" then 1200
  else if size = "10x4" then 1000
  else if size = "8x3" then 800
  else if size = "6x3" then 600
  else if size = "4x3" then 500
  else 500

/-- The static municipality multiplier table of `getInstallationPrice`, scaled
by ten to stay in integers (`1.0 → 10`, `1.1 → 11`, `1.2 → 12`, `0.9 → 9`;
`municipalityMultipliers[municipality] || 1.0`, every multiplier non-zero). -/
def municipalityMultiplierTenths (municipality : String) : Int :=
  if municipality = "مصراتة" then 10
  else if municipality = "طرابلس" then 11
  else if municipality = "بنغازي" then 12
  else if municipality = "زليتن" then 9
  else if municipality = "أبو سليم" then 11
  else 10

/-- `getInstallationPrice`: `Math.round(basePrice * multiplier)` with the two
static tables.  Every base fee is a multiple of 100 and every multiplier a
multiple of one tenth, so the product is an exact integer and the IEEE-double
`Math.round` of the source coincides with this exact rounding. -/
def getInstallationPrice (size municipality : String) : Int :=
  mathRoundDiv (installationBasePrice size * municipalityMultiplierTenths municipality) 10

/-- `calculateDailyPrice`, with the two date strings replaced by their parsed
epoch-millisecond timestamps (`new Date(s).getTime()`). -/
def calculateDailyPrice (table : List PricingRow) (billboard : BillboardPricingData)
    (customerType : String) (startMs endMs : Int) (includeInstallation : Bool) :
    PricingCalculation :=
  let dailyPrice := findPriceForBillboard table billboard.size billboard.level customerType .kOneDay
  let totalDays := mathCeilDiv (endMs - startMs) msPerDay + 1
  let subtotal := dailyPrice * totalDays
  let installationPrice :=
    if includeInstallation then getInstallationPrice billboard.size billboard.municipality else 0
  { billboard := billboard
    basePrice := dailyPrice
    dailyPrice := dailyPrice
    totalDays := totalDays
    subtotal := subtotal
    installationPrice := installationPrice
    total := subtotal + installationPrice }

/-- `calculatePackagePrice`. -/
def calculatePackagePrice (table : List PricingRow) (billboard : BillboardPricingData)
    (customerType : String) (packageOption : PackageOption) (includeInstallation : Bool) :
    PricingCalculation :=
  let packagePrice := findPriceForBillboard table billboard.size billboard.level customerType packageOption.key
  let installationPrice :=
    if includeInstallation then getInstallationPrice billboard.size billboard.municipality else 0
  { billboard := billboard
    basePrice := packagePrice
    dailyPrice := mathRoundDiv packagePrice packageOption.duration
    totalDays := packageOption.duration
    subtotal := packagePrice
    installationPrice := installationPrice
    total := packagePrice + installationPrice }

/-- The error message thrown by `calculateMultipleBillboards` on a mode /
argument mismatch. -/
def invalidParamsMsg : String := "معاملات الحساب غير صحيحة"

/-- `calculateMultipleBillboards`: iterate the billboards in order, pricing
each by the selected mode; a missing end date in daily mode or a missing
package option in package mode throws (`Except.error`), aborting the whole
batch.  The JavaScript truthiness test on the end-date string (where `''` is
as missing as `undefined`) is modelled by the `Option` being `none`. -/
def calculateMultipleBillboards (table : List PricingRow)
    (billboards : List BillboardPricingData) (customerType : String)
    (pricingMode : PricingMode) (startMs : Int) (endMs : Option Int)
    (packageOption : Option PackageOption) (includeInstallation : Bool) :
    Except String (List PricingCalculation) :=
  match billboards with
  | [] => .ok []
  | b :: rest =>
    let step : Except String PricingCalculation :=
      match pricingMode, endMs, packageOption with
      | .daily, some e, _ =>
          .ok (calculateDailyPrice table b customerType startMs e includeInstallation)
      | .package, _, some p =>
          .ok (calculatePackagePrice table b customerType p includeInstallation)
      | _, _, _ => .error invalidParamsMsg
    match step with
    | .error m => .error m
    | .ok c =>
      match calculateMultipleBillboards table rest customerType pricingMode startMs
          endMs packageOption includeInstallation with
      | .error m => .error m
      | .ok cs => .ok (c :: cs)

/-- The decimal-digit characters emitted by the number printer. -/
def digitChar (d : Nat) : Char := Char.ofNat (48 + d)

/-- Fuel-driven decimal printer for naturals (most significant digit first);
`fuel = n + 1` always suffices since `n < 10 ^ (n + 1)`.  Written with fuel so
that it reduces inside the kernel on concrete inputs. -/
def natToDigitsAux : Nat → Nat → List Char → List Char
  | 0, _, acc => acc
  | fuel + 1, n, acc =>
    if n < 10 then digitChar n :: acc
    else natToDigitsAux fuel (n / 10) (digitChar (n % 10) :: acc)

/-- The decimal string of a natural number, as JavaScript `String(n)` prints
it. -/
def natToString (n : Nat) : String := String.mk (natToDigitsAux (n + 1) n [])

/-- The decimal string of an integer, as JavaScript `String(n)` prints it
(a leading `-` for negatives). -/
def intToString (i : Int) : String :=
  if i < 0 then String.mk ('-' :: (natToString i.natAbs).data) else natToString i.toNat

/-- `generateQuote`, parameterized by the current instant `now` (epoch
milliseconds, the source's `Date.now()`) and the loaded price table.  The
package-mode end date `start.setDate(getDate() + duration)` is modelled as
adding `duration` days in epoch milliseconds, which is what the calendar
arithmetic computes for the UTC-midnight dates the service passes around. -/
def generateQuote (now : Int) (table : List PricingRow) (customerInfo : CustomerInfo)
    (billboards : List BillboardPricingData) (pricingMode : PricingMode)
    (startMs : Int) (endMs : Option Int) (packageOption : Option PackageOption)
    (includeInstallation : Bool) : Except String PricingQuote :=
  match calculateMultipleBillboards table billboards customerInfo.customerType
      pricingMode startMs endMs packageOption includeInstallation with
  | .error m => .error m
  | .ok calculations =>
    let subtotal := calculations.foldl (fun sum c => sum + c.subtotal) 0
    let totalInstallation := calculations.foldl (fun sum c => sum + c.installationPrice) 0
    let grandTotal := subtotal + totalInstallation
    let finalEndDate :=
      match pricingMode, packageOption with
      | .package, some p => some (startMs + p.duration * msPerDay)
      | _, _ => endMs
    .ok { id := "Q-" ++ intToString now
          customerInfo := customerInfo
          pricingMode := pricingMode
          startDate := startMs
          endDate := finalEndDate
          packageDuration := packageOption.map (fun p => p.label)
          billboards := calculations
          subtotal := subtotal
          totalInstallation := totalInstallation
          grandTotal := grandTotal
          currency := "د.ل"
          createdAt := now
          validUntil := now + 30 * msPerDay }

/-- `calculateAverageDailyPrice`: `0` for an empty list, else
`Math.round` of the mean of the `dailyPrice` fields. -/
def calculateAverageDailyPrice (calculations : List PricingCalculation) : Int :=
  if calculations.length = 0 then 0
  else
    let totalDailyPrice := calculations.foldl (fun sum c => sum + c.dailyPrice) 0
    mathRoundDiv totalDailyPrice (calculations.length : Int)

/-- One `breakdown[key] = (breakdown[key] || 0) + 1` step on a JavaScript
object modelled as an insertion-ordered association list: increment the
existing entry, or append a fresh entry with count `1`. -/
def bump : List (String × Nat) → String → List (String × Nat)
  | [], k => [(k, 1)]
  | (k', v) :: t, k => if k' = k then (k', v + 1) :: t else (k', v) :: bump t k

/-- The count stored in a breakdown object at `k`, `0` when absent. -/
def breakdownCount : List (String × Nat) → String → Nat
  | [], _ => 0
  | (k', v) :: t, k => if k' = k then v else breakdownCount t k

/-- The occurrence-counting fold that `getCampaignStats` performs with its
`forEach`; the three breakdowns are this fold at three different key
projections. -/
def breakdownOf (f : PricingCalculation → String)
    (calculations : List PricingCalculation) : List (String × Nat) :=
  calculations.foldl (fun m c => bump m (f c)) []

/-- The record returned by `getCampaignStats`. -/
structure CampaignStats where
  totalBillboards : Nat
  totalDays : Int
  averageDailyPrice : Int
  sizeBreakdown : List (String × Nat)
  municipalityBreakdown : List (String × Nat)
  levelBreakdown : List (String × Nat)
  deriving DecidableEq, Repr

/-- `getCampaignStats`. -/
def getCampaignStats (calculations : List PricingCalculation) : CampaignStats :=
  { totalBillboards := calculations.length
    totalDays := match calculations with | [] => 0 | c :: _ => c.totalDays
    averageDailyPrice := calculateAverageDailyPrice calculations
    sizeBreakdown := breakdownOf (fun c => c.billboard.size) calculations
    municipalityBreakdown := breakdownOf (fun c => c.billboard.municipality) calculations
    levelBreakdown := breakdownOf (fun c => c.billboard.level) calculations }

/-- JavaScript `s.split(sep)` for a single-character separator, at the
character-list level: splits at every occurrence, keeping empty segments
(`"".split(sep) = [""]`).  Structural recursion so that it reduces inside the
kernel on concrete inputs, unlike the library splitter. -/
def splitOnChar (sep : Char) : List Char → List (List Char)
  | [] => [[]]
  | c :: cs =>
    let r := splitOnChar sep cs
    if c = sep then [] :: r
    else
      match r with
      | [] => [[c]]
      | g :: gs => (c :: g) :: gs

/-- `s.split(sep)` on strings. -/
def splitStr (sep : Char) (s : String) : List String :=
  (splitOnChar sep s.data).map String.mk

/-- JavaScript `String.prototype.trim`, over the ASCII whitespace characters
the service's data can contain (the full JS definition also strips rarer
Unicode space characters, which never occur in the pricing table's fields). -/
def jsTrim (s : String) : String :=
  String.mk (((s.data.dropWhile Char.isWhitespace).reverse.dropWhile Char.isWhitespace).reverse)

/-- The digit-prefix part of JavaScript `parseInt`: take the longest prefix of
decimal digits; `NaN` (`none`) when it is empty, else its value. -/
def parseDigits (cs : List Char) : Option Nat :=
  let ds := cs.takeWhile Char.isDigit
  if ds.isEmpty then none
  else some (ds.foldl (fun a c => a * 10 + (c.toNat - 48)) 0)

/-- JavaScript `parseInt` on an already-trimmed string, restricted to decimal
notation (an optional sign followed by a longest digit prefix; the radix
auto-detection for `0x` prefixes is not modelled, as no pricing datum uses
it).  `parseInt(undefined)` — the missing-cell case — is handled at the call
sites by an `Option.bind`. -/
def jsParseInt (s : String) : Option Int :=
  match s.data with
  | [] => none
  | c :: rest =>
    if c = '-' then (parseDigits rest).map (fun n => -(n : Int))
    else if c = '+' then (parseDigits rest).map (fun n => (n : Int))
    else (parseDigits (c :: rest)).map (fun n => (n : Int))

/-- A CSV-import row object (`const row: any = {}` filled by dynamic
assignments): an insertion-ordered association list with unique keys. -/
def CsvObj := List (String × FieldVal)
  deriving DecidableEq, Repr

/-- JavaScript property assignment `row[k] = v`: overwrite the existing entry
in place, or append a fresh one. -/
def objSet : CsvObj → String → FieldVal → CsvObj
  | [], k, v => [(k, v)]
  | (k', v') :: t, k, v => if k' = k then (k, v) :: t else (k', v') :: objSet t k v

/-- JavaScript property read `row[k]`: `undefined` when the key is absent. -/
def objGet : CsvObj → String → FieldVal
  | [], _ => .undefined
  | (k', v') :: t, k => if k' = k then v' else objGet t k

/-- The six duration-price column headers of the bulk format. -/
def durationHeaders : List String :=
  ["شهر واحد", "2 أشهر", "3 أشهر", "6 أشهر", "سنة كاملة", "يوم واحد"]

/-- One header/cell assignment of the import loop
(`const value = values[index]?.trim()` followed by the three-way coercion):
`id` becomes `parseInt(value) || undefined` (so `NaN` and `0` both leave the
property `undefined`), a duration column becomes `parseInt(value) || 0`, and
any other column becomes `value || ''`. -/
def assignField (row : CsvObj) (header : String) (value : Option String) : CsvObj :=
  let v := value.map jsTrim
  if header = "id" then
    objSet row "id"
      (match v.bind jsParseInt with
       | some n => if n = 0 then .undefined else .num n
       | none => .undefined)
  else if header ∈ durationHeaders then
    objSet row header (.num ((v.bind jsParseInt).getD 0))
  else
    objSet row header (.str (v.getD ""))

/-- Build one row object from the header list and the line's cell values
(`headers.forEach((header, index) => …)`). -/
def mkRow (headers values : List String) : CsvObj :=
  headers.enum.foldl (fun row p => assignField row p.2 values[p.1]?) []

/-- Parse one data line: split it on commas and fill a row object. -/
def parseLine (headers : List String) (line : String) : CsvObj :=
  mkRow headers (splitStr ',' line)

/-- The acceptance check `if (row.المقاس && row.المستوى && row.الزبون)`. -/
def acceptedRow (row : CsvObj) : Bool :=
  (objGet row "المقاس").truthy && (objGet row "المستوى").truthy && (objGet row "الزبون").truthy

/-- The data-line loop of `updatePricingData`: parse each line in order and
push the row exactly when it passes the acceptance check. -/
def importRows (headers : List String) : List String → List CsvObj
  | [] => []
  | line :: rest =>
    let row := parseLine headers line
    if acceptedRow row then row :: importRows headers rest
    else importRows headers rest

/-- The CSV-parsing stage of `updatePricingData`: trim the upload, split it
into lines, take the first line as the header row, and run the import loop
over the remaining lines.  (The subsequent delete-all / bulk-insert against
the backend and the cache invalidation carry these rows unchanged.) -/
def updatePricingDataRows (csvData : String) : List CsvObj :=
  let lines := splitStr '\n' (jsTrim csvData)
  let headers := splitStr ',' (lines.headD "")
  importRows headers (lines.drop 1)

/-- `xs.join(sep)` at the character-list level. -/
def joinChars (sep : Char) : List (List Char) → List Char
  | [] => []
  | [x] => x
  | x :: y :: t => x ++ sep :: joinChars sep (y :: t)

/-- `xs.join(sep)` on strings. -/
def joinWith (sep : Char) (parts : List String) : String :=
  String.mk (joinChars sep (parts.map String.data))

/-- The ten-column header order of the bulk format, as the export writes it. -/
def exportHeaders : List String :=
  ["المقاس", "المستوى", "الزبون", "شهر واحد", "2 أشهر", "3 أشهر", "6 أشهر",
   "سنة كاملة", "يوم واحد", "id"]

/-- The ten serialized cells of one exported row:
`[row.المقاس, row.المستوى, row.الزبون, row['شهر واحد'] || 0, …, row.id || '']`
— each missing (or zero) numeric field rendered as `0`, a missing (or zero)
id rendered as the empty string. -/
def exportFields (r : PricingRow) : List String :=
  [r.size, r.level, r.customerType,
   intToString (r.oneMonth.getD 0),
   intToString (r.twoMonths.getD 0),
   intToString (r.threeMonths.getD 0),
   intToString (r.sixMonths.getD 0),
   intToString (r.oneYear.getD 0),
   intToString (r.oneDay.getD 0),
   match r.id with
   | some n => if n = 0 then "" else intToString n
   | none => ""]

/-- `exportToCSV` of the pricing-data manager: the header line followed by one
comma-joined line per row, newline-joined. -/
def exportToCSV (rows : List PricingRow) : String :=
  joinWith '\n' (joinWith ',' exportHeaders :: rows.map (fun r => joinWith ',' (exportFields r)))

/-- The first row of the built-in default table. -/
def fallbackRow1 : PricingRow :=
  { id := some 1, size := "13x5", level := "A", customerType := "عادي",
    oneMonth := some 24000, twoMonths := some 23000, threeMonths := some 22000,
    sixMonths := some 21000, oneYear := some 20000, oneDay := some 800 }

/-- The second row of the built-in default table. -/
def fallbackRow2 : PricingRow :=
  { id := some 2, size := "12x4", level := "A", customerType := "عادي",
    oneMonth := some 21000, twoMonths := some 20000, threeMonths := some 19000,
    sixMonths := some 18000, oneYear := some 17000, oneDay := some 700 }

/-- `getFallbackData`: the built-in two-row default table the service falls
back to when the backend is unreachable. -/
def getFallbackData : List PricingRow := [fallbackRow1, fallbackRow2]

/-- A sample billboard used to instantiate the specifications on concrete
inputs. -/
def demoBillboard : BillboardPricingData :=
  { id := "1", name := "لوحة تجريبية", size := "13x5", municipality := "طرابلس",
    level := "A", status := "متاح", location := "طرابلس - السراج", imageUrl := none }

/-- `find?` returns the designated element of a decomposition whose prefix
wholly fails the predicate and whose pivot satisfies it. -/
theorem find?_first {α : Type} (p : α → Bool) (pre : List α) (row : α) (post : List α)
    (hpre : ∀ r ∈ pre, p r = false) (hrow : p row = true) :
    (pre ++ row :: post).find? p = some row := by
  induction pre with
  | nil => simp [List.find?_cons, hrow]
  | cons a t ih =>
    have ha : p a = false := hpre a (by simp)
    simp only [List.cons_append, List.find?_cons, ha]
    exact ih (fun r hr => hpre r (by simp [hr]))

/-- C1.  Daily-mode calculation: `totalDays` is the ceiling of the day span
plus one — bounded below and above by the exact day arithmetic, giving `1`
when the two dates coincide and `7` for a six-day span — `subtotal` is
`dailyPrice * totalDays`, the installation fee is charged exactly when the
flag is set, and `total = subtotal + installationPrice`. -/
theorem calculateDailyPrice_spec (table : List PricingRow) (b : BillboardPricingData)
    (ct : String) (s e : Int) (inc : Bool) :
    (calculateDailyPrice table b ct s e inc).totalDays = mathCeilDiv (e - s) msPerDay + 1
  ∧ msPerDay * ((calculateDailyPrice table b ct s e inc).totalDays - 2) < e - s
  ∧ e - s ≤ msPerDay * ((calculateDailyPrice table b ct s e inc).totalDays - 1)
  ∧ (e = s → (calculateDailyPrice table b ct s e inc).totalDays = 1)
  ∧ (e = s + 6 * msPerDay → (calculateDailyPrice table b ct s e inc).totalDays = 7)
  ∧ (calculateDailyPrice table b ct s e inc).dailyPrice
      = findPriceForBillboard table b.size b.level ct .kOneDay
  ∧ (calculateDailyPrice table b ct s e inc).subtotal
      = (calculateDailyPrice table b ct s e inc).dailyPrice
          * (calculateDailyPrice table b ct s e inc).totalDays
  ∧ (calculateDailyPrice table b ct s e inc).installationPrice
      = (if inc then getInstallationPrice b.size b.municipality else 0)
  ∧ (calculateDailyPrice table b ct s e inc).total
      = (calculateDailyPrice table b ct s e inc).subtotal
          + (calculateDailyPrice table b ct s e inc).installationPrice := by
  have hpos : (0 : Int) < msPerDay := by decide
  have hb := mathCeilDiv_bounds (e - s) msPerDay hpos
  refine ⟨rfl, ?_, ?_, ?_, ?_, rfl, rfl, rfl, rfl⟩
  · show msPerDay * (mathCeilDiv (e - s) msPerDay + 1 - 2) < e - s
    have := hb.1; linarith
  · show e - s ≤ msPerDay * (mathCeilDiv (e - s) msPerDay + 1 - 1)
    have := hb.2; linarith
  · intro he
    show mathCeilDiv (e - s) msPerDay + 1 = 1
    subst he; norm_num [mathCeilDiv]
  · intro he
    show mathCeilDiv (e - s) msPerDay + 1 = 7
    subst he
    have : s + 6 * msPerDay - s = 6 * msPerDay := by ring
    rw [this]
    decide

/-- C1 witness: on the fallback table with start = end the day count is 1. -/
theorem calculateDailyPrice_spec_witness :
    (calculateDailyPrice getFallbackData demoBillboard "عادي" 0 0 true).totalDays = 1 :=
  (calculateDailyPrice_spec getFallbackData demoBillboard "عادي" 0 0 true).2.2.2.1 rfl

/-- C2.  Package-mode calculation: `subtotal` is the resolved package price,
`totalDays` the package duration, the displayed `dailyPrice` the rounded
quotient of the package price by the duration (characterized by the exact
round-half-up bounds when the duration is positive, with the spec's instance
`round(24000 / 30) = 800`), and `total = packagePrice + installationPrice`. -/
theorem calculatePackagePrice_spec (table : List PricingRow) (b : BillboardPricingData)
    (ct : String) (pkg : PackageOption) (inc : Bool) :
    (calculatePackagePrice table b ct pkg inc).subtotal
      = findPriceForBillboard table b.size b.level ct pkg.key
  ∧ (calculatePackagePrice table b ct pkg inc).basePrice
      = (calculatePackagePrice table b ct pkg inc).subtotal
  ∧ (calculatePackagePrice table b ct pkg inc).totalDays = pkg.duration
  ∧ (calculatePackagePrice table b ct pkg inc).dailyPrice
      = mathRoundDiv (calculatePackagePrice table b ct pkg inc).subtotal pkg.duration
  ∧ (0 < pkg.duration →
      2 * pkg.duration * (calculatePackagePrice table b ct pkg inc).dailyPrice
          ≤ 2 * (calculatePackagePrice table b ct pkg inc).subtotal + pkg.duration
        ∧ 2 * (calculatePackagePrice table b ct pkg inc).subtotal + pkg.duration
          < 2 * pkg.duration * (calculatePackagePrice table b ct pkg inc).dailyPrice
              + 2 * pkg.duration)
  ∧ mathRoundDiv 24000 30 = 800
  ∧ (calculatePackagePrice table b ct pkg inc).installationPrice
      = (if inc then getInstallationPrice b.size b.municipality else 0)
  ∧ (calculatePackagePrice table b ct pkg inc).total
      = (calculatePackagePrice table b ct pkg inc).subtotal
          + (calculatePackagePrice table b ct pkg inc).installationPrice := by
  refine ⟨rfl, rfl, rfl, rfl, ?_, by decide, rfl, rfl⟩
  intro hd
  exact mathRoundDiv_bounds _ pkg.duration hd

/-- C2 witness: the one-month package on the fallback table (package price
24000, duration 30) displays a daily price of 800, inside the rounding
bounds. -/
theorem calculatePackagePrice_spec_witness :
    2 * 30 * (calculatePackagePrice getFallbackData demoBillboard "عادي"
        { key := .kOneMonth, label := "شهر واحد", duration := 30 } false).dailyPrice
      ≤ 2 * (calculatePackagePrice getFallbackData demoBillboard "عادي"
        { key := .kOneMonth, label := "شهر واحد", duration := 30 } false).subtotal + 30
  ∧ (calculatePackagePrice getFallbackData demoBillboard "عادي"
        { key := .kOneMonth, label := "شهر واحد", duration := 30 } false).dailyPrice = 800 :=
  ⟨((calculatePackagePrice_spec getFallbackData demoBillboard "عادي"
      { key := .kOneMonth, label := "شهر واحد", duration := 30 } false).2.2.2.2.1
      (by decide)).1,
   by decide⟩

/-- C3.  Price resolution is a total function (it cannot throw): when no row
matches the exact (size, level, customerType) triple it returns `0`; when the
table decomposes into a non-matching prefix, a matching pivot and a remainder,
it returns that first matching row's value at the key coerced through
`numOr0`, which yields the stored number and sends the absent and non-numeric
cases to `0`. -/
theorem findPriceForBillboard_spec (table : List PricingRow) (size level ct : String)
    (key : PricingKey) :
    ((∀ r ∈ table, rowMatches r size level ct = false) →
        findPriceForBillboard table size level ct key = 0)
  ∧ (∀ pre row post, table = pre ++ row :: post →
        (∀ r ∈ pre, rowMatches r size level ct = false) →
        rowMatches row size level ct = true →
        findPriceForBillboard table size level ct key = numOr0 (row.getKey key))
  ∧ (∀ n, numOr0 (FieldVal.num n) = n)
  ∧ numOr0 FieldVal.undefined = 0
  ∧ (∀ s, numOr0 (FieldVal.str s) = 0) := by
  refine ⟨?_, ?_, fun n => rfl, rfl, fun s => rfl⟩
  · intro h
    unfold findPriceForBillboard
    rw [List.find?_eq_none.mpr (fun r hr => by simp [h r hr])]
  · intro pre row post htab hpre hrow
    unfold findPriceForBillboard
    rw [htab, find?_first _ pre row post hpre hrow]

/-- C3 witness: on the fallback table the second row is the first match for
(12x4, A, عادي) and its one-day price 700 is returned. -/
theorem findPriceForBillboard_spec_witness :
    findPriceForBillboard getFallbackData "12x4" "A" "عادي" .kOneDay = 700 := by
  have h := (findPriceForBillboard_spec getFallbackData "12x4" "A" "عادي" .kOneDay).2.1
    [fallbackRow1] fallbackRow2 [] rfl
    (by intro r hr; fin_cases hr; decide) (by decide)
  rw [h]; decide

/-- C8.  The installation fee is the rounded product of the size-keyed base
fee and the municipality-keyed multiplier (kept in tenths), with defaults 500
and 1.0 for unrecognized keys; in particular fee("13x5","طرابلس") = 1650 and
the double-default fee is 500.  The function is total: it succeeds on every
pair of strings. -/
theorem getInstallationPrice_spec (size municipality : String) :
    getInstallationPrice size municipality
      = mathRoundDiv (installationBasePrice size * municipalityMultiplierTenths municipality) 10
  ∧ 2 * 10 * getInstallationPrice size municipality
      ≤ 2 * (installationBasePrice size * municipalityMultiplierTenths municipality) + 10
  ∧ 2 * (installationBasePrice size * municipalityMultiplierTenths municipality) + 10
      < 2 * 10 * getInstallationPrice size municipality + 2 * 10
  ∧ (size ∉ (["13x5", "12x4", "10x4", "8x3", "6x3", "4x3"] : List String) →
        installationBasePrice size = 500)
  ∧ (municipality ∉ (["مصراتة", "طرابلس", "بنغازي", "زليتن", "أبو سليم"] : List String) →
        municipalityMultiplierTenths municipality = 10)
  ∧ getInstallationPrice "13x5" "طرابلس" = 1650
  ∧ getInstallationPrice "unknown-size" "unknown-city" = 500 := by
  have hb := mathRoundDiv_bounds
    (installationBasePrice size * municipalityMultiplierTenths municipality) 10 (by decide)
  refine ⟨rfl, hb.1, hb.2, ?_, ?_, by decide, by decide⟩
  · intro h
    simp only [List.mem_cons, List.not_mem_nil, or_false, not_or] at h
    obtain ⟨h1, h2, h3, h4, h5, h6⟩ := h
    simp [installationBasePrice, h1, h2, h3, h4, h5, h6]
  · intro h
    simp only [List.mem_cons, List.not_mem_nil, or_false, not_or] at h
    obtain ⟨h1, h2, h3, h4, h5⟩ := h
    simp [municipalityMultiplierTenths, h1, h2, h3, h4, h5]

/-- C8 witness: both static tables fall back to their defaults on an
unrecognized key. -/
theorem getInstallationPrice_spec_witness :
    installationBasePrice "unknown-size" = 500
  ∧ municipalityMultiplierTenths "unknown-city" = 10 :=
  ⟨(getInstallationPrice_spec "unknown-size" "unknown-city").2.2.2.1 (by decide),
   (getInstallationPrice_spec "unknown-size" "unknown-city").2.2.2.2.1 (by decide)⟩

/-- C4 counterexample: with an empty asset list, daily mode without an end
date does NOT throw — the loop body never runs and the batch returns an empty
success, contradicting the claim that such a call always fails. -/
theorem calculateMultipleBillboards_emptyBatch :
    calculateMultipleBillboards getFallbackData [] "عادي" .daily 0 none none false
      = .ok [] := rfl

/-- C4 (amended).  With at least one asset, daily mode without an end date or
package mode without a package option rejects the whole batch with the
contract-violation error (no partial results); an empty asset list returns an
empty success; and every successful batch returns one calculation per input
asset, in input order (its `billboard` components are exactly the input
list). -/
theorem calculateMultipleBillboards_spec (table : List PricingRow)
    (billboards : List BillboardPricingData) (ct : String) (mode : PricingMode)
    (s : Int) (endMs : Option Int) (pkg : Option PackageOption) (inc : Bool) :
    (billboards ≠ [] → mode = .daily → endMs = none →
        calculateMultipleBillboards table billboards ct mode s endMs pkg inc
          = .error invalidParamsMsg)
  ∧ (billboards ≠ [] → mode = .package → pkg = none →
        calculateMultipleBillboards table billboards ct mode s endMs pkg inc
          = .error invalidParamsMsg)
  ∧ (billboards = [] →
        calculateMultipleBillboards table billboards ct mode s endMs pkg inc = .ok [])
  ∧ (∀ l, calculateMultipleBillboards table billboards ct mode s endMs pkg inc = .ok l →
        l.map (fun c => c.billboard) = billboards) := by
  refine ⟨?_, ?_, ?_, ?_⟩
  · intro hne hm he
    subst hm; subst he
    cases billboards with
    | nil => exact absurd rfl hne
    | cons b rest => rfl
  · intro hne hm hp
    subst hm; subst hp
    cases billboards with
    | nil => exact absurd rfl hne
    | cons b rest => rfl
  · intro h; subst h; rfl
  · intro l h
    induction billboards generalizing l with
    | nil =>
      simp only [calculateMultipleBillboards, Except.ok.injEq] at h
      subst h; rfl
    | cons b rest ih =>
      cases mode with
      | daily =>
        cases endMs with
        | none => simp [calculateMultipleBillboards] at h
        | some e =>
          simp only [calculateMultipleBillboards] at h
          cases hr : calculateMultipleBillboards table rest ct .daily s (some e) pkg inc with
          | error m => rw [hr] at h; simp at h
          | ok cs =>
            rw [hr] at h
            simp only [Except.ok.injEq] at h
            subst h
            simpa [calculateDailyPrice] using ih cs hr
      | package =>
        cases pkg with
        | none => simp [calculateMultipleBillboards] at h
        | some p =>
          simp only [calculateMultipleBillboards] at h
          cases hr : calculateMultipleBillboards table rest ct .package s endMs (some p) inc with
          | error m => rw [hr] at h; simp at h
          | ok cs =>
            rw [hr] at h
            simp only [Except.ok.injEq] at h
            subst h
            simpa [calculatePackagePrice] using ih cs hr

/-- C4 witness: a one-asset daily batch without an end date rejects with the
contract-violation message. -/
theorem calculateMultipleBillboards_spec_witness :
    calculateMultipleBillboards getFallbackData [demoBillboard] "عادي" .daily 0 none none false
      = .error invalidParamsMsg :=
  (calculateMultipleBillboards_spec getFallbackData [demoBillboard] "عادي" .daily 0
    none none false).1 (by simp) rfl rfl

/-- A left fold adding a projection equals the initial value plus the sum of
the projected list. -/
theorem foldl_add_map {α : Type} (f : α → Int) (l : List α) (a : Int) :
    l.foldl (fun s c => s + f c) a = a + (l.map f).sum := by
  induction l generalizing a with
  | nil => simp
  | cons x t ih => simp [List.foldl_cons, ih, add_assoc]

/-- C5.  Every successfully generated quote satisfies the aggregation
identities: its `subtotal` is the sum of its line items' subtotals, its
`totalInstallation` the sum of their installation fees, and its `grandTotal`
their sum. -/
theorem generateQuote_totals (now : Int) (table : List PricingRow) (ci : CustomerInfo)
    (bbs : List BillboardPricingData) (mode : PricingMode) (s : Int)
    (endMs : Option Int) (pkg : Option PackageOption) (inc : Bool) (q : PricingQuote)
    (h : generateQuote now table ci bbs mode s endMs pkg inc = .ok q) :
    q.subtotal = (q.billboards.map (fun c => c.subtotal)).sum
  ∧ q.totalInstallation = (q.billboards.map (fun c => c.installationPrice)).sum
  ∧ q.grandTotal = q.subtotal + q.totalInstallation := by
  unfold generateQuote at h
  cases hc : calculateMultipleBillboards table bbs ci.customerType mode s endMs pkg inc with
  | error m => rw [hc] at h; exact absurd h (by simp)
  | ok calcs =>
    rw [hc] at h
    simp only [Except.ok.injEq] at h
    subst h
    refine ⟨?_, ?_, rfl⟩
    · show calcs.foldl (fun sum c => sum + c.subtotal) 0
        = (calcs.map (fun c => c.subtotal)).sum
      rw [foldl_add_map]; simp
    · show calcs.foldl (fun sum c => sum + c.installationPrice) 0
        = (calcs.map (fun c => c.installationPrice)).sum
      rw [foldl_add_map]; simp

/-- The sample customer used to instantiate quote generation. -/
def demoCustomer : CustomerInfo :=
  { name := "عميل تجريبي", email := "test@example.com", phone := "0912345678",
    company := none, customerType := "عادي" }

/-- The one-month package option (first entry of `getPackageOptions`). -/
def demoPackage : PackageOption := { key := .kOneMonth, label := "شهر واحد", duration := 30 }

/-- A concrete successful quote: one billboard, package mode, installation
included. -/
def demoQuote : PricingQuote :=
  match generateQuote 1700000000000 getFallbackData demoCustomer [demoBillboard]
      .package 0 none (some demoPackage) true with
  | .ok q => q
  | .error _ =>
    { id := "", customerInfo := demoCustomer, pricingMode := .daily, startDate := 0,
      endDate := none, packageDuration := none, billboards := [], subtotal := 0,
      totalInstallation := 0, grandTotal := 0, currency := "", createdAt := 0,
      validUntil := 0 }

/-- C5 witness: the concrete demo quote satisfies the aggregation identity,
with subtotal 24000, installation 1650 and grand total 25650. -/
theorem generateQuote_totals_witness :
    demoQuote.grandTotal = demoQuote.subtotal + demoQuote.totalInstallation
  ∧ demoQuote.subtotal = 24000 ∧ demoQuote.totalInstallation = 1650
  ∧ demoQuote.grandTotal = 25650 :=
  ⟨(generateQuote_totals 1700000000000 getFallbackData demoCustomer [demoBillboard]
      .package 0 none (some demoPackage) true demoQuote rfl).2.2,
   by decide, by decide, by decide⟩


/-- `bump` adds one to the count stored at its key and leaves other keys
unchanged. -/
theorem breakdownCount_bump (m : List (String × Nat)) (k k' : String) :
    breakdownCount (bump m k) k'
      = breakdownCount m k' + (if k' = k then 1 else 0) := by
  induction m with
  | nil =>
    by_cases h : k = k'
    · subst h; simp [bump, breakdownCount]
    · simp [bump, breakdownCount, h, Ne.symm h]
  | cons p t ih =>
    obtain ⟨a, v⟩ := p
    by_cases ha : a = k
    · by_cases h : a = k'
      · have hk : k' = k := by rw [← h, ha]
        simp [bump, breakdownCount, ha, h, hk]
      · have hk : ¬ k' = k := fun hh => h (by rw [ha, ← hh])
        have hk2 : ¬ k = k' := fun hh => h (by rw [ha, hh])
        simp [bump, breakdownCount, ha, h, hk, hk2]
    · by_cases h : a = k'
      · have hk : ¬ k' = k := fun hh => ha (by rw [h, hh])
        have hk2 : ¬ k = a := fun hh => ha hh.symm
        simp [bump, breakdownCount, ha, h, hk, hk2]
      · simp [bump, breakdownCount, ha, h, ih]

/-- The counting fold of `getCampaignStats` counts occurrences: the stored
count at any key is the number of calculations projecting to it. -/
theorem breakdownCount_breakdownOf (f : PricingCalculation → String)
    (l : List PricingCalculation) (k : String) :
    breakdownCount (breakdownOf f l) k = l.countP (fun c => f c == k) := by
  suffices h : ∀ m, breakdownCount (l.foldl (fun m c => bump m (f c)) m) k
      = breakdownCount m k + l.countP (fun c => f c == k) by
    simpa [breakdownOf, breakdownCount] using h []
  induction l with
  | nil => intro m; simp
  | cons c t ih =>
    intro m
    rw [List.foldl_cons, ih, breakdownCount_bump, List.countP_cons]
    by_cases h : f c = k
    · simp [h]; omega
    · have h2 : ¬ k = f c := fun hh => h hh.symm
      simp [h, h2]

/-- The total of the counts stored in a breakdown object. -/
def breakdownTotal (m : List (String × Nat)) : Nat := (m.map (fun p => p.2)).sum

/-- Each `bump` increases the stored total by exactly one. -/
theorem breakdownTotal_bump (m : List (String × Nat)) (k : String) :
    breakdownTotal (bump m k) = breakdownTotal m + 1 := by
  induction m with
  | nil => simp [bump, breakdownTotal]
  | cons p t ih =>
    obtain ⟨a, v⟩ := p
    by_cases ha : a = k
    · simp [bump, breakdownTotal, ha]; omega
    · simp [bump, breakdownTotal, ha] at ih ⊢; omega

/-- The counting fold stores one unit per processed calculation. -/
theorem breakdownTotal_breakdownOf (f : PricingCalculation → String)
    (l : List PricingCalculation) :
    breakdownTotal (breakdownOf f l) = l.length := by
  suffices h : ∀ m, breakdownTotal (l.foldl (fun m c => bump m (f c)) m)
      = breakdownTotal m + l.length by
    simpa [breakdownOf, breakdownTotal] using h []
  induction l with
  | nil => intro m; simp
  | cons c t ih =>
    intro m
    rw [List.foldl_cons, ih, breakdownTotal_bump]
    simp; omega

/-- Every entry a `bump` fold ever stores has a positive count. -/
theorem breakdownOf_pos (f : PricingCalculation → String)
    (l : List PricingCalculation) :
    ∀ p ∈ breakdownOf f l, 1 ≤ p.2 := by
  suffices h : ∀ m, (∀ p ∈ m, 1 ≤ p.2) →
      ∀ p ∈ l.foldl (fun m c => bump m (f c)) m, 1 ≤ p.2 by
    exact h [] (by simp)
  have hbump : ∀ m k, (∀ p ∈ m, 1 ≤ p.2) → ∀ p ∈ bump m k, 1 ≤ p.2 := by
    intro m k
    induction m with
    | nil => intro _ p hp; simp [bump] at hp; simp [hp]
    | cons q t ih =>
      obtain ⟨a, v⟩ := q
      intro hm p hp
      by_cases ha : a = k
      · simp [bump, ha] at hp
        rcases hp with hp | hp
        · simp [hp]
        · exact hm p (by simp [hp])
      · simp [bump, ha] at hp
        rcases hp with hp | hp
        · subst hp; exact hm (a, v) (by simp)
        · exact ih (fun q hq => hm q (by simp [hq])) p hp
  induction l with
  | nil => intro m hm; simpa using hm
  | cons c t ih =>
    intro m hm
    exact ih (bump m (f c)) (hbump m (f c) hm)

/-- C9.  Campaign statistics: `totalBillboards` is the list length,
`totalDays` the first item's day count (`0` on empty — not a sum),
`averageDailyPrice` is `0` on empty and otherwise the round-half-up of the
mean daily price (characterized by the exact bounds, so no division by zero
occurs), and the three breakdowns count occurrences by size, municipality and
level, all empty for the empty list. -/
theorem getCampaignStats_spec (l : List PricingCalculation) :
    (getCampaignStats l).totalBillboards = l.length
  ∧ (getCampaignStats l).totalDays = ((l.head?.map (fun c => c.totalDays)).getD 0)
  ∧ (l = [] →
        (getCampaignStats l).averageDailyPrice = 0
      ∧ (getCampaignStats l).sizeBreakdown = []
      ∧ (getCampaignStats l).municipalityBreakdown = []
      ∧ (getCampaignStats l).levelBreakdown = [])
  ∧ (l ≠ [] →
        2 * (l.length : Int) * (getCampaignStats l).averageDailyPrice
            ≤ 2 * (l.map (fun c => c.dailyPrice)).sum + (l.length : Int)
      ∧ 2 * (l.map (fun c => c.dailyPrice)).sum + (l.length : Int)
            < 2 * (l.length : Int) * (getCampaignStats l).averageDailyPrice
                + 2 * (l.length : Int))
  ∧ (∀ k, breakdownCount (getCampaignStats l).sizeBreakdown k
        = l.countP (fun c => c.billboard.size == k))
  ∧ (∀ k, breakdownCount (getCampaignStats l).municipalityBreakdown k
        = l.countP (fun c => c.billboard.municipality == k))
  ∧ (∀ k, breakdownCount (getCampaignStats l).levelBreakdown k
        = l.countP (fun c => c.billboard.level == k)) := by
  refine ⟨rfl, ?_, ?_, ?_,
    fun k => breakdownCount_breakdownOf _ l k,
    fun k => breakdownCount_breakdownOf _ l k,
    fun k => breakdownCount_breakdownOf _ l k⟩
  · cases l <;> rfl
  · intro h; subst h; exact ⟨rfl, rfl, rfl, rfl⟩
  · intro h
    have hlen : l.length ≠ 0 := fun hh => h (List.length_eq_zero.mp hh)
    have hpos : (0 : Int) < (l.length : Int) := by
      exact_mod_cast Nat.pos_of_ne_zero hlen
    have havg : (getCampaignStats l).averageDailyPrice
        = mathRoundDiv (l.map (fun c => c.dailyPrice)).sum (l.length : Int) := by
      show calculateAverageDailyPrice l = _
      unfold calculateAverageDailyPrice
      rw [if_neg hlen, foldl_add_map]
      simp
    rw [havg]
    exact mathRoundDiv_bounds _ _ hpos

/-- C9 witness: the empty campaign has zero billboards, zero average and
empty breakdowns. -/
theorem getCampaignStats_spec_witness :
    (getCampaignStats []).totalBillboards = 0
  ∧ (getCampaignStats []).averageDailyPrice = 0
  ∧ (getCampaignStats []).sizeBreakdown = [] :=
  ⟨(getCampaignStats_spec []).1,
   ((getCampaignStats_spec []).2.2.1 rfl).1,
   ((getCampaignStats_spec []).2.2.1 rfl).2.1⟩

/-- C10.  In each of the three breakdown maps every stored count is at least
one, and the counts sum to `totalBillboards`, the input list's length. -/
theorem getCampaignStats_breakdowns (l : List PricingCalculation) :
    (∀ p ∈ (getCampaignStats l).sizeBreakdown, 1 ≤ p.2)
  ∧ (∀ p ∈ (getCampaignStats l).municipalityBreakdown, 1 ≤ p.2)
  ∧ (∀ p ∈ (getCampaignStats l).levelBreakdown, 1 ≤ p.2)
  ∧ breakdownTotal (getCampaignStats l).sizeBreakdown
      = (getCampaignStats l).totalBillboards
  ∧ breakdownTotal (getCampaignStats l).municipalityBreakdown
      = (getCampaignStats l).totalBillboards
  ∧ breakdownTotal (getCampaignStats l).levelBreakdown
      = (getCampaignStats l).totalBillboards :=
  ⟨breakdownOf_pos _ l, breakdownOf_pos _ l, breakdownOf_pos _ l,
   breakdownTotal_breakdownOf _ l, breakdownTotal_breakdownOf _ l,
   breakdownTotal_breakdownOf _ l⟩

/-- A concrete one-item calculation list for instantiating the statistics. -/
def demoCalc : PricingCalculation :=
  calculateDailyPrice getFallbackData demoBillboard "عادي" 0 0 false

/-- C10 witness: on a one-item campaign the size counts total one and the
stored entry has count at least one. -/
theorem getCampaignStats_breakdowns_witness :
    breakdownTotal (getCampaignStats [demoCalc]).sizeBreakdown = 1
  ∧ 1 ≤ (("13x5", (1 : Nat)) : String × Nat).2 :=
  ⟨(getCampaignStats_breakdowns [demoCalc]).2.2.2.1,
   (getCampaignStats_breakdowns [demoCalc]).1 ("13x5", 1) (by decide)⟩

/-- Reading a freshly assigned property returns the assigned value. -/
theorem objGet_objSet_self (m : CsvObj) (k : String) (v : FieldVal) :
    objGet (objSet m k v) k = v := by
  induction m with
  | nil => simp [objSet, objGet]
  | cons p t ih =>
    obtain ⟨a, w⟩ := p
    by_cases ha : a = k
    · simp [objSet, objGet, ha]
    · simp [objSet, objGet, ha, ih]

/-- The import loop is a filter over the parsed lines. -/
theorem importRows_eq_filter (headers : List String) (lines : List String) :
    importRows headers lines = (lines.map (parseLine headers)).filter acceptedRow := by
  induction lines with
  | nil => rfl
  | cons line rest ih =>
    by_cases h : acceptedRow (parseLine headers line)
    · simp [importRows, h, ih, List.filter_cons]
    · simp [importRows, h, ih, List.filter_cons]

/-- Every row the import loop keeps passed the acceptance check. -/
theorem importRows_accepted (headers : List String) (lines : List String) (row : CsvObj)
    (h : row ∈ importRows headers lines) : acceptedRow row = true := by
  rw [importRows_eq_filter] at h
  exact (List.mem_filter.mp h).2

/-- Splitting a separator-free character list returns it whole. -/
theorem splitOnChar_not_mem (sep : Char) (cs : List Char) (h : sep ∉ cs) :
    splitOnChar sep cs = [cs] := by
  induction cs with
  | nil => rfl
  | cons c t ih =>
    have hc : ¬ c = sep := fun hh => h (by simp [hh])
    have ht : sep ∉ t := fun hh => h (by simp [hh])
    simp [splitOnChar, hc, ih ht]

/-- A split never returns the empty list of segments. -/
theorem splitOnChar_ne_nil (sep : Char) (cs : List Char) : splitOnChar sep cs ≠ [] := by
  induction cs with
  | nil => simp [splitOnChar]
  | cons c t ih =>
    by_cases hc : c = sep
    · simp [splitOnChar, hc]
    · simp only [splitOnChar]
      cases hr : splitOnChar sep t with
      | nil => exact absurd hr ih
      | cons g gs => simp [hc]

/-- Splitting after a separator-free prefix peels that prefix off as the
first segment. -/
theorem splitOnChar_append_cons (sep : Char) (p t : List Char) (h : sep ∉ p) :
    splitOnChar sep (p ++ sep :: t) = p :: splitOnChar sep t := by
  induction p with
  | nil => simp [splitOnChar]
  | cons c p' ih =>
    have hc : ¬ c = sep := fun hh => h (by simp [hh])
    have hp : sep ∉ p' := fun hh => h (by simp [hh])
    simp only [List.cons_append, splitOnChar, List.append_eq]
    rw [ih hp]
    simp [hc]

/-- Splitting the separator-join of non-empty, separator-free parts recovers
the parts. -/
theorem splitOnChar_joinChars (sep : Char) (parts : List (List Char))
    (hne : parts ≠ []) (h : ∀ p ∈ parts, sep ∉ p) :
    splitOnChar sep (joinChars sep parts) = parts := by
  induction parts with
  | nil => exact absurd rfl hne
  | cons x xs ih =>
    cases xs with
    | nil => exact splitOnChar_not_mem sep x (h x (by simp))
    | cons y t =>
      show splitOnChar sep (x ++ sep :: joinChars sep (y :: t)) = _
      rw [splitOnChar_append_cons sep x _ (h x (by simp))]
      rw [ih (by simp) (fun p hp => h p (by simp [hp]))]

/-- Every character of a join is the separator or a character of a part. -/
theorem mem_joinChars (sep : Char) (parts : List (List Char)) (c : Char)
    (h : c ∈ joinChars sep parts) : c = sep ∨ ∃ p ∈ parts, c ∈ p := by
  induction parts with
  | nil => simp [joinChars] at h
  | cons x xs ih =>
    cases xs with
    | nil =>
      right; exact ⟨x, by simp, h⟩
    | cons y t =>
      simp only [joinChars, List.mem_append, List.mem_cons] at h
      rcases h with h | h | h
      · right; exact ⟨x, by simp, h⟩
      · left; exact h
      · rcases ih h with h' | ⟨p, hp, hcp⟩
        · left; exact h'
        · right; exact ⟨p, by simp [List.mem_cons] at hp ⊢; tauto, hcp⟩

/-- A list whose first element fails the predicate is unchanged by
`dropWhile`. -/
theorem dropWhile_head_neg (l : List Char) (c : Char) (h : l.head? = some c)
    (hc : c.isWhitespace = false) : l.dropWhile Char.isWhitespace = l := by
  cases l with
  | nil => simp at h
  | cons a t =>
    have : a = c := by simpa using h
    subst this
    simp [List.dropWhile_cons, hc]

/-- `jsTrim` is the identity on a string whose first and last characters are
not whitespace. -/
theorem jsTrim_eq_self (s : String) (c z : Char) (h1 : s.data.head? = some c)
    (h2 : s.data.getLast? = some z) (hc : c.isWhitespace = false)
    (hz : z.isWhitespace = false) : jsTrim s = s := by
  have hd : s.data.dropWhile Char.isWhitespace = s.data := dropWhile_head_neg _ c h1 hc
  have hrev : s.data.reverse.head? = some z := by
    rw [List.head?_reverse]; exact h2
  have hd2 : s.data.reverse.dropWhile Char.isWhitespace = s.data.reverse :=
    dropWhile_head_neg _ z hrev hz
  unfold jsTrim
  rw [hd, hd2, List.reverse_reverse]

/-- A join is empty exactly when it is the join of no parts or of one empty
part. -/
theorem joinChars_eq_nil (sep : Char) (parts : List (List Char)) :
    joinChars sep parts = [] ↔ parts = [] ∨ parts = [[]] := by
  cases parts with
  | nil => simp [joinChars]
  | cons x xs =>
    cases xs with
    | nil => simp [joinChars]
    | cons y t => simp [joinChars]

/-- Prepending to a non-empty list does not change its last element. -/
theorem getLast?_cons_ne_nil {α : Type} (a : α) (l : List α) (h : l ≠ []) :
    (a :: l).getLast? = l.getLast? := by
  cases l with
  | nil => exact absurd rfl h
  | cons b t => exact List.getLast?_cons_cons

/-- The last character of a join ending in part `q`: `q`'s last character
when `q` is non-empty, else the separator (or nothing when `q` was the only,
empty part). -/
theorem getLast?_joinChars (sep : Char) (parts : List (List Char)) (q : List Char) :
    (joinChars sep (parts ++ [q])).getLast?
      = if q = [] then (if parts = [] then none else some sep) else q.getLast? := by
  induction parts with
  | nil =>
    by_cases hq : q = []
    · simp [joinChars, hq]
    · simp [joinChars, hq]
  | cons p ps ih =>
    simp only [List.cons_append]
    cases hps : ps ++ [q] with
    | nil => exact absurd hps (by simp)
    | cons y t =>
      rw [hps] at ih
      have hq_of : (y :: t : List (List Char)) = [[]] → q = [] := by
        intro h
        rw [← hps] at h
        have h2 := congrArg List.getLast? h
        rw [List.getLast?_concat] at h2
        simpa using h2
      have hps_of : (y :: t : List (List Char)) = [[]] → ps = [] := by
        intro h
        rw [← hps] at h
        have h2 := congrArg List.length h
        simpa using h2
      show (p ++ sep :: joinChars sep (y :: t)).getLast? = _
      rw [List.getLast?_append_cons]
      by_cases hq : q = []
      · by_cases hps' : ps = []
        · subst hps'
          simp only [List.nil_append] at hps
          injection hps with h1 h2
          subst h1; subst h2; subst hq
          simp [joinChars]
        · have hJ : joinChars sep (y :: t) ≠ [] := by
            rw [Ne, joinChars_eq_nil]
            rintro (h | h)
            · simp at h
            · exact hps' (hps_of h)
          rw [getLast?_cons_ne_nil sep _ hJ, ih]
          simp [hq, hps']
      · have hJ : joinChars sep (y :: t) ≠ [] := by
          rw [Ne, joinChars_eq_nil]
          rintro (h | h)
          · simp at h
          · exact hq (hq_of h)
        rw [getLast?_cons_ne_nil sep _ hJ, ih]
        simp [hq]

/-- The first character of a join starting with non-empty part `x` is `x`'s
first character. -/
theorem head?_joinChars (sep : Char) (x : List Char) (xs : List (List Char))
    (h : x ≠ []) : (joinChars sep (x :: xs)).head? = x.head? := by
  cases xs with
  | nil => rfl
  | cons y t =>
    show (x ++ sep :: joinChars sep (y :: t)).head? = x.head?
    cases x with
    | nil => exact absurd rfl h
    | cons c cs => simp

/-- An element the `getLast?` returns is in the list. -/
theorem mem_of_getLast?_eq {α : Type} {l : List α} {a : α} (h : l.getLast? = some a) :
    a ∈ l := by
  induction l with
  | nil => simp at h
  | cons b t ih =>
    cases t with
    | nil => simp at h; simp [h]
    | cons c t' =>
      rw [List.getLast?_cons_cons] at h
      exact List.mem_cons_of_mem b (ih h)

/-- `takeWhile` keeps a list all of whose elements satisfy the predicate. -/
theorem takeWhile_all {α : Type} (p : α → Bool) (l : List α) (h : ∀ x ∈ l, p x = true) :
    l.takeWhile p = l :=
  List.takeWhile_eq_self_iff.mpr h

/-- Every emitted digit character is well-formed. -/
theorem digitChar_props (d : Nat) (h : d < 10) :
    (digitChar d).isDigit = true ∧ (digitChar d).isWhitespace = false
  ∧ ¬ digitChar d = ',' ∧ ¬ digitChar d = '\n' ∧ ¬ digitChar d = '-'
  ∧ ¬ digitChar d = '+' ∧ (digitChar d).toNat = 48 + d := by
  interval_cases d <;> exact ⟨by decide, by decide, by decide, by decide, by decide,
    by decide, by decide⟩

/-- The printer's accumulator splits off as a suffix. -/
theorem natToDigitsAux_append (f : Nat) : ∀ (n : Nat) (acc : List Char),
    natToDigitsAux f n acc = natToDigitsAux f n [] ++ acc := by
  induction f with
  | zero => intro n acc; simp [natToDigitsAux]
  | succ f ih =>
    intro n acc
    by_cases h : n < 10
    · simp [natToDigitsAux, h]
    · simp only [natToDigitsAux, if_neg h]
      rw [ih (n / 10) (digitChar (n % 10) :: acc), ih (n / 10) [digitChar (n % 10)]]
      simp

/-- Every character the printer emits is a decimal digit character. -/
theorem natToDigitsAux_shape (f : Nat) : ∀ (n : Nat) (c : Char),
    c ∈ natToDigitsAux f n [] → ∃ d, d < 10 ∧ c = digitChar d := by
  induction f with
  | zero => intro n c h; simp [natToDigitsAux] at h
  | succ f ih =>
    intro n c h
    by_cases hn : n < 10
    · simp [natToDigitsAux, hn] at h
      exact ⟨n, hn, h⟩
    · simp only [natToDigitsAux, if_neg hn] at h
      rw [natToDigitsAux_append] at h
      simp only [List.mem_append, List.mem_singleton] at h
      rcases h with h | h
      · exact ih _ c h
      · exact ⟨n % 10, Nat.mod_lt _ (by norm_num), h⟩

/-- With sufficient fuel the printed digit list is non-empty and folding the
decimal reconstruction over it recovers the number (shifted past any seed). -/
theorem natToDigitsAux_foldl (f : Nat) : ∀ (n a : Nat), n < 10 ^ (f + 1) →
    natToDigitsAux (f + 1) n [] ≠ []
  ∧ (natToDigitsAux (f + 1) n []).foldl (fun a c => a * 10 + (c.toNat - 48)) a
      = a * 10 ^ (natToDigitsAux (f + 1) n []).length + n := by
  induction f with
  | zero =>
    intro n a h
    have hn : n < 10 := by simpa using h
    have ht := (digitChar_props n hn).2.2.2.2.2.2
    simp [natToDigitsAux, hn, ht]
  | succ f ih =>
    intro n a h
    by_cases hn : n < 10
    · have ht := (digitChar_props n hn).2.2.2.2.2.2
      simp [natToDigitsAux, hn, ht]
    · have hdiv : n / 10 < 10 ^ (f + 1) := by
        rw [Nat.div_lt_iff_lt_mul (by norm_num)]
        calc n < 10 ^ (f + 2) := h
        _ = 10 ^ (f + 1) * 10 := by ring
      obtain ⟨hne, hval⟩ := ih (n / 10) a hdiv
      have hstep : natToDigitsAux (f + 2) n []
          = natToDigitsAux (f + 1) (n / 10) [] ++ [digitChar (n % 10)] := by
        show natToDigitsAux (f + 1 + 1) n [] = _
        simp only [natToDigitsAux, if_neg hn]
        exact natToDigitsAux_append (f + 1) (n / 10) [digitChar (n % 10)]
      have hmod := (digitChar_props (n % 10) (Nat.mod_lt _ (by norm_num))).2.2.2.2.2.2
      constructor
      · rw [hstep]; simp
      · rw [hstep, List.foldl_append, hval]
        simp only [List.foldl_cons, List.foldl_nil, List.length_append,
          List.length_singleton, hmod]
        have hdm := Nat.div_add_mod n 10
        rw [pow_succ]
        set L := (natToDigitsAux (f + 1) (n / 10) []).length
        ring_nf
        omega

/-- The decimal printer emits a non-empty, all-digit string that
`parseDigits` reads back to the printed number. -/
theorem natToString_spec (n : Nat) :
    (natToString n).data ≠ []
  ∧ (∀ c ∈ (natToString n).data, ∃ d, d < 10 ∧ c = digitChar d)
  ∧ parseDigits (natToString n).data = some n := by
  have hlt : n < 10 ^ (n + 1) := by
    calc n < 10 ^ n := Nat.lt_pow_self (by norm_num) n
    _ ≤ 10 ^ (n + 1) := Nat.pow_le_pow_right (by norm_num) (Nat.le_succ n)
  obtain ⟨hne, hval⟩ := natToDigitsAux_foldl n n 0 hlt
  have hdata : (natToString n).data = natToDigitsAux (n + 1) n [] := rfl
  refine ⟨by rw [hdata]; exact hne, by rw [hdata]; exact natToDigitsAux_shape (n + 1) n, ?_⟩
  rw [hdata]
  unfold parseDigits
  have hdig : ∀ c ∈ natToDigitsAux (n + 1) n [], c.isDigit = true := by
    intro c hc
    obtain ⟨d, hd, rfl⟩ := natToDigitsAux_shape (n + 1) n c hc
    exact (digitChar_props d hd).1
  rw [takeWhile_all _ _ hdig]
  simp only [List.isEmpty_iff, hne, if_neg hne]
  rw [hval]
  simp

/-- A non-empty list has a last element, and it is a member. -/
theorem exists_getLast? {α : Type} (l : List α) (h : l ≠ []) :
    ∃ z, l.getLast? = some z ∧ z ∈ l := by
  induction l with
  | nil => exact absurd rfl h
  | cons a t ih =>
    cases t with
    | nil => exact ⟨a, rfl, by simp⟩
    | cons b t' =>
      obtain ⟨z, hz, hmem⟩ := ih (by simp)
      exact ⟨z, by rw [List.getLast?_cons_cons]; exact hz, by simp [hmem]⟩

/-- Unfolding `jsParseInt` through a known character decomposition. -/
theorem jsParseInt_data (s : String) (c : Char) (rest : List Char) (h : s.data = c :: rest) :
    jsParseInt s = if c = '-' then (parseDigits rest).map (fun n => -(n : Int))
      else if c = '+' then (parseDigits rest).map (fun n => (n : Int))
      else (parseDigits (c :: rest)).map (fun n => (n : Int)) := by
  unfold jsParseInt
  rw [h]

/-- The integer printer: `jsParseInt` reads its output back, the output is
non-empty, free of whitespace, commas and newlines, and fixed by `jsTrim`. -/
theorem intToString_spec (i : Int) :
    jsParseInt (intToString i) = some i
  ∧ (intToString i).data ≠ []
  ∧ (∀ c ∈ (intToString i).data, c.isWhitespace = false ∧ ¬ c = ',' ∧ ¬ c = '\n')
  ∧ jsTrim (intToString i) = intToString i := by
  by_cases h : i < 0
  · have hdata : (intToString i).data = '-' :: (natToString i.natAbs).data := by
      simp [intToString, h]
    obtain ⟨hne, hshape, hparse⟩ := natToString_spec i.natAbs
    have hmem : ∀ c ∈ (intToString i).data,
        c.isWhitespace = false ∧ ¬ c = ',' ∧ ¬ c = '\n' := by
      intro c hc
      rw [hdata] at hc
      rcases List.mem_cons.mp hc with hc | hc
      · subst hc; exact ⟨by decide, by decide, by decide⟩
      · obtain ⟨d, hd, rfl⟩ := hshape c hc
        obtain ⟨_, hws, hcomma, hnl, _⟩ := digitChar_props d hd
        exact ⟨hws, hcomma, hnl⟩
    refine ⟨?_, by rw [hdata]; simp, hmem, ?_⟩
    · rw [jsParseInt_data _ '-' _ hdata, if_pos rfl, hparse]
      simp [abs_of_neg h]
    · obtain ⟨z, hz, hzmem⟩ := exists_getLast? (natToString i.natAbs).data hne
      refine jsTrim_eq_self _ '-' z ?_ ?_ (by decide) ?_
      · rw [hdata]; rfl
      · rw [hdata, getLast?_cons_ne_nil '-' _ hne]; exact hz
      · exact (hmem z (by rw [hdata]; exact List.mem_cons_of_mem _ hzmem)).1
  · have hdata : (intToString i).data = (natToString i.toNat).data := by
      simp [intToString, h]
    obtain ⟨hne, hshape, hparse⟩ := natToString_spec i.toNat
    have hmem : ∀ c ∈ (intToString i).data,
        c.isWhitespace = false ∧ ¬ c = ',' ∧ ¬ c = '\n' := by
      intro c hc
      rw [hdata] at hc
      obtain ⟨d, hd, rfl⟩ := hshape c hc
      obtain ⟨_, hws, hcomma, hnl, _⟩ := digitChar_props d hd
      exact ⟨hws, hcomma, hnl⟩
    cases hl : (natToString i.toNat).data with
    | nil => exact absurd hl hne
    | cons c rest =>
      obtain ⟨d, hd, hcd⟩ := hshape c (by rw [hl]; simp)
      obtain ⟨_, hws, _, _, hminus, hplus, _⟩ := digitChar_props d hd
      refine ⟨?_, by rw [hdata]; simp [hl], hmem, ?_⟩
      · rw [jsParseInt_data _ c rest (hdata.trans hl),
          if_neg (by rw [hcd]; exact hminus), if_neg (by rw [hcd]; exact hplus),
          ← hl, hparse]
        simp [Int.toNat_of_nonneg (not_lt.mp h)]
      · obtain ⟨z, hz, hzmem⟩ := exists_getLast? (natToString i.toNat).data hne
        refine jsTrim_eq_self _ c z ?_ ?_ (by rw [hcd]; exact hws) ?_
        · rw [hdata, hl]; rfl
        · rw [hdata]; exact hz
        · exact (hmem z (by rw [hdata]; exact hzmem)).1

/-- A four-column upload whose data line carries the valid integer `0` in the
`id` column. -/
def csvZeroId : String := "id,المقاس,المستوى,الزبون\n0,x,A,y"

/-- C6 counterexample: the id cell `"0"` parses to the integer `0`
(`jsParseInt "0" = some 0`, so it is neither absent nor invalid), yet the
accepted row is left with no id — `parseInt(value) || undefined` also drops a
zero id, because `0` is falsy. -/
theorem updatePricingData_zeroId :
    updatePricingDataRows csvZeroId
      = [[("id", FieldVal.undefined), ("المقاس", FieldVal.str "x"),
          ("المستوى", FieldVal.str "A"), ("الزبون", FieldVal.str "y")]]
  ∧ jsParseInt "0" = some 0 := ⟨rfl, rfl⟩

/-- C6 (amended).  CSV import: the accepted row set is exactly the
per-line-parsed rows filtered by the non-emptiness check on `المقاس`,
`المستوى` and `الزبون` (a failing line is dropped without aborting the rest);
every accepted row passes that check; a duration-price cell is coerced to a
number, absent or invalid cells becoming `0` and parsed values kept; an id
cell is kept as a number exactly when it parses to a non-zero integer, while
absent, invalid — or zero-valued — cells leave the id `undefined`; every other
cell is passed through as a trimmed string, absent cells becoming `""`. -/
theorem updatePricingData_spec (csvData : String) :
    (∀ headers lines, importRows headers lines
        = (lines.map (parseLine headers)).filter acceptedRow)
  ∧ (∀ row ∈ updatePricingDataRows csvData,
        (objGet row "المقاس").truthy = true
      ∧ (objGet row "المستوى").truthy = true
      ∧ (objGet row "الزبون").truthy = true)
  ∧ (∀ (row : CsvObj) (header : String) (value : Option String),
        header ∈ durationHeaders →
        objGet (assignField row header value) header
          = FieldVal.num (((value.map jsTrim).bind jsParseInt).getD 0))
  ∧ (∀ (row : CsvObj) (value : Option String) (n : Int),
        (value.map jsTrim).bind jsParseInt = some n → n ≠ 0 →
        objGet (assignField row "id" value) "id" = FieldVal.num n)
  ∧ (∀ (row : CsvObj) (value : Option String),
        ((value.map jsTrim).bind jsParseInt = none
          ∨ (value.map jsTrim).bind jsParseInt = some 0) →
        objGet (assignField row "id" value) "id" = FieldVal.undefined)
  ∧ (∀ (row : CsvObj) (header : String) (value : Option String),
        ¬ header = "id" → header ∉ durationHeaders →
        objGet (assignField row header value) header
          = FieldVal.str ((value.map jsTrim).getD "")) := by
  refine ⟨importRows_eq_filter, ?_, ?_, ?_, ?_, ?_⟩
  · intro row hrow
    have hacc : acceptedRow row = true := importRows_accepted _ _ row hrow
    simp only [acceptedRow, Bool.and_eq_true] at hacc
    exact ⟨hacc.1.1, hacc.1.2, hacc.2⟩
  · intro row header value hmem
    have hne_id : ¬ header = "id" := by fin_cases hmem <;> decide
    unfold assignField
    rw [if_neg hne_id, if_pos hmem]
    exact objGet_objSet_self _ _ _
  · intro row value n hp hn
    unfold assignField
    rw [if_pos rfl, hp]
    simp only [if_neg hn]
    exact objGet_objSet_self _ _ _
  · intro row value hor
    unfold assignField
    rw [if_pos rfl]
    rcases hor with hp | hp <;> rw [hp] <;> simp only [if_pos rfl] <;>
      exact objGet_objSet_self _ _ _
  · intro row header value hid hdur
    unfold assignField
    rw [if_neg hid, if_neg hdur]
    exact objGet_objSet_self _ _ _

/-- C6 witness: a duration cell with surrounding blanks is trimmed and parsed
to its numeric value. -/
theorem updatePricingData_spec_witness :
    objGet (assignField [] "شهر واحد" (some " 24000 ")) "شهر واحد"
      = FieldVal.num 24000 := by
  have h := (updatePricingData_spec "").2.2.1 [] "شهر واحد" (some " 24000 ") (by decide)
  rw [h]
  rfl

/-- Rebuilding a string from its characters is the identity. -/
theorem mk_data (s : String) : String.mk s.data = s := rfl

/-- Mapping to characters and back is the identity on string lists. -/
theorem map_mk_data (l : List String) : ((l.map String.data).map String.mk) = l := by
  induction l with
  | nil => rfl
  | cons a t ih => simp [ih, mk_data]

/-- A CSV-safe key field: non-empty, free of the two delimiters, and fixed by
trimming.  The export format has no quoting, so a comma or newline inside a
key field would corrupt the table and a padded or empty field would not
survive the re-import. -/
def csvSafeField (s : String) : Prop :=
  s ≠ "" ∧ ',' ∉ s.data ∧ '\n' ∉ s.data ∧ jsTrim s = s

/-- A pricing row whose three key columns are CSV-safe. -/
def csvSafeRow (r : PricingRow) : Prop :=
  csvSafeField r.size ∧ csvSafeField r.level ∧ csvSafeField r.customerType

/-- The re-imported row object carries the same size, level, customer type
and the same six effective duration prices (an absent price exporting as `0`)
as the original row. -/
def rowCorresponds (r : PricingRow) (o : CsvObj) : Prop :=
  objGet o "المقاس" = FieldVal.str r.size
  ∧ objGet o "المستوى" = FieldVal.str r.level
  ∧ objGet o "الزبون" = FieldVal.str r.customerType
  ∧ objGet o "شهر واحد" = FieldVal.num (r.oneMonth.getD 0)
  ∧ objGet o "2 أشهر" = FieldVal.num (r.twoMonths.getD 0)
  ∧ objGet o "3 أشهر" = FieldVal.num (r.threeMonths.getD 0)
  ∧ objGet o "6 أشهر" = FieldVal.num (r.sixMonths.getD 0)
  ∧ objGet o "سنة كاملة" = FieldVal.num (r.oneYear.getD 0)
  ∧ objGet o "يوم واحد" = FieldVal.num (r.oneDay.getD 0)

/-- Every serialized cell of a CSV-safe row is free of commas and newlines. -/
theorem exportFields_safe (r : PricingRow) (hr : csvSafeRow r) :
    ∀ f ∈ exportFields r, ',' ∉ f.data ∧ '\n' ∉ f.data := by
  have hint : ∀ (i : Int), ',' ∉ (intToString i).data ∧ '\n' ∉ (intToString i).data := by
    intro i
    constructor
    · intro hc; exact ((intToString_spec i).2.2.1 ',' hc).2.1 rfl
    · intro hc; exact ((intToString_spec i).2.2.1 '\n' hc).2.2 rfl
  intro f hf
  fin_cases hf
  · exact ⟨hr.1.2.1, hr.1.2.2.1⟩
  · exact ⟨hr.2.1.2.1, hr.2.1.2.2.1⟩
  · exact ⟨hr.2.2.2.1, hr.2.2.2.2.1⟩
  · exact hint _
  · exact hint _
  · exact hint _
  · exact hint _
  · exact hint _
  · exact hint _
  · cases hid : r.id with
    | none => simp
    | some n =>
      by_cases hn : n = 0
      · simp [hn]
      · simpa [hn] using hint n

/-- A serialized row line is never empty: it contains nine commas. -/
theorem exportLine_ne_nil (r : PricingRow) :
    (joinWith ',' (exportFields r)).data ≠ [] := by
  show joinChars ',' ((exportFields r).map String.data) ≠ []
  rw [Ne, joinChars_eq_nil]
  simp [exportFields]

/-- A serialized row line of a CSV-safe row contains no newline. -/
theorem exportLine_no_newline (r : PricingRow) (hr : csvSafeRow r) :
    '\n' ∉ (joinWith ',' (exportFields r)).data := by
  intro hc
  have hc' : '\n' ∈ joinChars ',' ((exportFields r).map String.data) := hc
  rcases mem_joinChars ',' _ '\n' hc' with h | ⟨p, hp, hcp⟩
  · exact absurd h (by decide)
  · obtain ⟨f, hf, rfl⟩ := List.mem_map.mp hp
    exact (exportFields_safe r hr f hf).2 hcp

/-- A serialized row line ends in a non-whitespace character (a digit, or the
trailing comma left by an empty id cell). -/
theorem exportLine_last (r : PricingRow) :
    ∃ z, (joinWith ',' (exportFields r)).data.getLast? = some z
      ∧ z.isWhitespace = false := by
  have hshape : (joinWith ',' (exportFields r)).data
      = joinChars ','
          (((exportFields r).map String.data).dropLast
            ++ [(match r.id with
                 | some n => if n = 0 then "" else intToString n
                 | none => "").data]) := rfl
  rw [hshape, getLast?_joinChars]
  cases hid : r.id with
  | none => exact ⟨',', by simp [exportFields], by decide⟩
  | some n =>
    by_cases hn : n = 0
    · exact ⟨',', by simp [hn, exportFields], by decide⟩
    · obtain ⟨z, hz, hzmem⟩ := exists_getLast? (intToString n).data (intToString_spec n).2.1
      refine ⟨z, ?_, ((intToString_spec n).2.2.1 z hzmem).1⟩
      simp only [hn, if_neg hn]
      rw [if_neg ?hq]
      · exact hz
      case hq => exact (intToString_spec n).2.1

/-- Parsing one exported line of a CSV-safe row recovers its key columns and
its six effective duration prices. -/
theorem rowCorresponds_parseLine (r : PricingRow) (hr : csvSafeRow r) :
    rowCorresponds r (parseLine exportHeaders (joinWith ',' (exportFields r))) := by
  have hsplit : splitStr ',' (joinWith ',' (exportFields r)) = exportFields r := by
    show (splitOnChar ',' (joinChars ',' ((exportFields r).map String.data))).map String.mk
      = exportFields r
    rw [splitOnChar_joinChars ',' _ (by simp [exportFields])
      (by
        intro p hp
        obtain ⟨f, hf, rfl⟩ := List.mem_map.mp hp
        exact (exportFields_safe r hr f hf).1),
      map_mk_data]
  unfold parseLine
  rw [hsplit]
  have hnum : ∀ (x : Option Int),
      FieldVal.num ((jsParseInt (jsTrim (intToString (x.getD 0)))).getD 0)
        = FieldVal.num (x.getD 0) := by
    intro x
    rw [(intToString_spec (x.getD 0)).2.2.2, (intToString_spec (x.getD 0)).1]
    rfl
  refine ⟨?_, ?_, ?_, ?_, ?_, ?_, ?_, ?_, ?_⟩
  · show FieldVal.str (jsTrim r.size) = FieldVal.str r.size
    rw [hr.1.2.2.2]
  · show FieldVal.str (jsTrim r.level) = FieldVal.str r.level
    rw [hr.2.1.2.2.2]
  · show FieldVal.str (jsTrim r.customerType) = FieldVal.str r.customerType
    rw [hr.2.2.2.2.2]
  · exact hnum r.oneMonth
  · exact hnum r.twoMonths
  · exact hnum r.threeMonths
  · exact hnum r.sixMonths
  · exact hnum r.oneYear
  · exact hnum r.oneDay

/-- The import loop over serialized CSV-safe rows accepts every line and
reproduces the rows in order. -/
theorem forall2_importRows (rows : List PricingRow) :
    (∀ r ∈ rows, csvSafeRow r) →
    List.Forall₂ rowCorresponds rows
      (importRows exportHeaders (rows.map (fun r => joinWith ',' (exportFields r)))) := by
  induction rows with
  | nil => intro _; exact List.Forall₂.nil
  | cons r rs ih =>
    intro h
    have hr := h r (by simp)
    have hcorr := rowCorresponds_parseLine r hr
    have hacc : acceptedRow (parseLine exportHeaders (joinWith ',' (exportFields r)))
        = true := by
      unfold acceptedRow
      rw [hcorr.1, hcorr.2.1, hcorr.2.2.1]
      simp [FieldVal.truthy, hr.1.1, hr.2.1.1, hr.2.2.1]
    have hstep : importRows exportHeaders
        ((r :: rs).map (fun r => joinWith ',' (exportFields r)))
        = parseLine exportHeaders (joinWith ',' (exportFields r))
          :: importRows exportHeaders (rs.map (fun r => joinWith ',' (exportFields r))) := by
      simp only [List.map_cons, importRows, hacc, if_true]
    rw [hstep]
    exact List.Forall₂.cons hcorr (ih (fun x hx => h x (by simp [hx])))

/-- C7 (amended).  For a table whose key columns are CSV-safe (non-empty,
free of commas and newlines, trim-invariant — the delimiter-split format has
no quoting), exporting and re-importing reproduces an equivalent row set: the
same rows in order, each with the same size, level, customer type and the
same six effective duration prices (absent prices exported and re-imported as
`0`); ids are not compared and may differ. -/
theorem exportImport_roundtrip (rows : List PricingRow)
    (h : ∀ r ∈ rows, csvSafeRow r) :
    List.Forall₂ rowCorresponds rows (updatePricingDataRows (exportToCSV rows)) := by
  have hexp : (exportToCSV rows).data
      = joinChars '\n' ((joinWith ',' exportHeaders).data
          :: (rows.map (fun r => joinWith ',' (exportFields r))).map String.data) := rfl
  have hhead : (exportToCSV rows).data.head? = some 'ا' := by
    rw [hexp, head?_joinChars '\n' _ _ (by decide)]
    rfl
  have hlast : ∃ z, (exportToCSV rows).data.getLast? = some z
      ∧ z.isWhitespace = false := by
    rcases List.eq_nil_or_concat' rows with hnil | ⟨rs, rL, hcat⟩
    · subst hnil
      exact ⟨'d', rfl, by decide⟩
    · subst hcat
      obtain ⟨z, hz, hzws⟩ := exportLine_last rL
      refine ⟨z, ?_, hzws⟩
      rw [hexp]
      have hmap : ((rs ++ [rL]).map (fun r => joinWith ',' (exportFields r))).map String.data
          = ((rs.map (fun r => joinWith ',' (exportFields r))).map String.data)
            ++ [(joinWith ',' (exportFields rL)).data] := by simp
      rw [hmap,
        show (joinWith ',' exportHeaders).data
            :: (((rs.map (fun r => joinWith ',' (exportFields r))).map String.data)
              ++ [(joinWith ',' (exportFields rL)).data])
          = ((joinWith ',' exportHeaders).data
              :: ((rs.map (fun r => joinWith ',' (exportFields r))).map String.data))
            ++ [(joinWith ',' (exportFields rL)).data] from rfl,
        getLast?_joinChars, if_neg (exportLine_ne_nil rL)]
      exact hz
  have htrim : jsTrim (exportToCSV rows) = exportToCSV rows := by
    obtain ⟨z, hz, hzws⟩ := hlast
    exact jsTrim_eq_self _ 'ا' z hhead hz (by decide) hzws
  have hsplit : splitStr '\n' (exportToCSV rows)
      = joinWith ',' exportHeaders
          :: rows.map (fun r => joinWith ',' (exportFields r)) := by
    show (splitOnChar '\n' (exportToCSV rows).data).map String.mk = _
    rw [hexp, splitOnChar_joinChars '\n' _ (by simp)
      (by
        intro p hp
        rcases List.mem_cons.mp hp with hp | hp
        · subst hp; decide
        · obtain ⟨line, hline, rfl⟩ := List.mem_map.mp hp
          obtain ⟨r, hrmem, rfl⟩ := List.mem_map.mp hline
          exact exportLine_no_newline r (h r hrmem))]
    exact map_mk_data
      (joinWith ',' exportHeaders :: rows.map (fun r => joinWith ',' (exportFields r)))
  have hrows : updatePricingDataRows (exportToCSV rows)
      = importRows exportHeaders (rows.map (fun r => joinWith ',' (exportFields r))) := by
    show importRows (splitStr ',' ((splitStr '\n' (jsTrim (exportToCSV rows))).headD ""))
        ((splitStr '\n' (jsTrim (exportToCSV rows))).drop 1) = _
    rw [htrim, hsplit]
    rfl
  rw [hrows]
  exact forall2_importRows rows h

/-- A pricing row whose size column is empty. -/
def emptySizeRow : PricingRow :=
  { id := none, size := "", level := "A", customerType := "عادي",
    oneMonth := some 100, twoMonths := none, threeMonths := none,
    sixMonths := none, oneYear := none, oneDay := some 5 }

/-- C7 counterexample: exporting a one-row table whose size is the empty
string and re-importing the text yields the empty row set — the unquoted
format cannot carry such a row through the import's non-emptiness check, so
the round trip does not hold for every price table. -/
theorem exportImport_emptySize :
    updatePricingDataRows (exportToCSV [emptySizeRow]) = []
  ∧ ([emptySizeRow] : List PricingRow).length = 1 := ⟨rfl, rfl⟩

/-- C7 witness: the fallback table's first row is CSV-safe and survives the
round trip field-for-field. -/
theorem exportImport_roundtrip_witness :
    List.Forall₂ rowCorresponds [fallbackRow1]
      (updatePricingDataRows (exportToCSV [fallbackRow1])) :=
  exportImport_roundtrip [fallbackRow1] (by
    intro r hr
    simp only [List.mem_singleton] at hr
    subst hr
    exact ⟨⟨by decide, by decide, by decide, by decide⟩,
      ⟨by decide, by decide, by decide, by decide⟩,
      ⟨by decide, by decide, by decide, by decide⟩⟩)
